/-
Verification of the note-generation and phrase-management core of the
ArtificialImproviser repository (src/py/note_collection.py and
src/py/generative_agent.py).

Modelling conventions:
* Python floats are modelled as rationals (all float arithmetic in this code
  is +, -, *, /, comparisons and clipping); numpy similarity computations that
  need square roots (path lengths, vector norms) are modelled over the reals.
* Notes are the dict records of the source, modelled as a structure with
  Option fields for the keys that may be absent from a dict.
* Randomness is modelled with an oracle: each call site of random(),
  randint(), sample() and choice() reads a dedicated oracle field, and a
  validity predicate records the range every draw is guaranteed to be in.
  Quantifying over all valid oracles quantifies over all possible outcomes
  of the random draws.
* Python exceptions (IndexError on out-of-range list access, ValueError of
  numpy choice on an empty list) are modelled by Option: a none result of
  a translated function means the Python original raises.
-/
import Mathlib

set_option linter.unusedVariables false

/-- A note record as built by NoteRecorder and GenerativeAgent: a Python dict
with keys fingers, data_points (lists of 5 or 6 floats), timestamps,
start_time, duration, pause_after, phrase, source. Option models a possibly
missing dict key. -/
structure PyNote where
  fingers : List ℕ := []
  data_points : List (List ℚ) := []
  timestamps : List ℚ := []
  start_time : ℚ := 0
  duration : Option ℚ := none
  pause_after : Option ℚ := none
  phrase : Option ℕ := none
  source : String := "human"
deriving DecidableEq

/-- Python int() applied to a float: truncation toward zero. -/
def pyInt (q : ℚ) : ℤ :=
  if q < 0 then -⌊-q⌋ else ⌊q⌋

/-- numpy clip of a scalar to the interval from lo to hi. -/
def npclip (v lo hi : ℚ) : ℚ := min (max v lo) hi

/-- Insertion of an element into a sorted list, helper of pySorted. -/
def insertSorted (a : ℕ) : List ℕ → List ℕ
  | [] => [a]
  | b :: t => if a ≤ b then a :: b :: t else b :: insertSorted a t

/-- Python sorted() on a list of small integers. -/
def pySorted (l : List ℕ) : List ℕ := l.foldr insertSorted []

/-- Sequential execution of a list of fallible computations collecting the
results (a Python loop building a list, where an iteration may raise). -/
def collectSome (f : ℕ → Option ℚ) : List ℕ → Option (List ℚ)
  | [] => some []
  | i :: is => do
      let v ← f i
      let vs ← collectSome f is
      pure (v :: vs)

/-- GenerativeAgent.POINT_INTERVAL: one generated point every 0.02 s. -/
def AGENT_POINT_INTERVAL : ℚ := 0.02

/-- GenerativeAgent._mutate: the probabilistic mutation gate. Fires when
1 / ((1-hotness)*985 + 15) exceeds the uniform draw r. -/
def mutate (hot r : ℚ) : Bool :=
  if 1 / ((1 - hot) * 985 + 15) > r then true else false

/-- GenerativeAgent._interpolate_value. r1 is the draw compared against
hotness, r2 the draw used for the 50/50 coin or the smooth blend factor. -/
def interpolate_value (hot r1 r2 v1 v2 : ℚ) : ℚ :=
  let blend := if hot < r1 then (if r2 < 1/2 then 0 else 1) else r2
  v1 + blend * (v2 - v1)

/-- GenerativeAgent._interpolate_vector: one shared blend factor applied to
every component pair. -/
def interpolate_vector (hot r1 r2 : ℚ) (vec1 vec2 : List ℚ) : List ℚ :=
  let blend_factor := if hot < r1 then (if r2 < 1/2 then 0 else 1) else r2
  List.zipWith (fun v1 v2 => v1 + blend_factor * (v2 - v1)) vec1 vec2

/-- Oracle for one call of GenerativeAgent.crossover: one field per random
call site of the source (functions of the loop index where the site is inside
a loop). -/
structure XOracle where
  rMutFingers : ℚ := 1/2
  fingersSample : List ℕ := [1]
  rCombine : ℚ := 1/2
  rKeep : ℕ → ℚ := fun _ => 1/2
  idxChoice : ℕ := 0
  rPickParent : ℚ := 1/2
  rMutFirst : ℕ → ℚ := fun _ => 1/2
  vFirst : ℕ → ℚ := fun _ => 1/2
  rFirstB1 : ℕ → ℚ := fun _ => 1/2
  rFirstB2 : ℕ → ℚ := fun _ => 1/2
  rMutCount : ℚ := 1/2
  countRand : ℕ := 2
  rCountB1 : ℚ := 1/2
  rCountB2 : ℚ := 1/2
  rMutStep : ℕ → ℚ := fun _ => 1/2
  vStep : ℕ → ℕ → ℚ := fun _ _ => 0
  rStepB1 : ℕ → ℚ := fun _ => 1/2
  rStepB2 : ℕ → ℚ := fun _ => 1/2
  rMutPause : ℚ := 1/2
  rPauseVal : ℚ := 1/2
  rPauseB1 : ℚ := 1/2
  rPauseB2 : ℚ := 1/2

/-- A uniform draw of numpy random(): in the half-open unit interval. -/
def unit01 (q : ℚ) : Prop := 0 ≤ q ∧ q < 1

/-- Ranges guaranteed for every oracle field by the random primitives of the
source: random() draws lie in the unit interval, random.sample(range(1,5),
randint(1,4)) is a non-empty subset of the fingers 1..4, randint(2, 400) is
between 2 and 400, and uniform(-0.3, 0.3) lies in that interval. -/
structure XOracle.Valid (o : XOracle) : Prop where
  rMutFingers01 : unit01 o.rMutFingers
  fingersSample_ne : o.fingersSample ≠ []
  fingersSample_mem : ∀ f ∈ o.fingersSample, f ∈ [1, 2, 3, 4]
  rCombine01 : unit01 o.rCombine
  rKeep01 : ∀ n, unit01 (o.rKeep n)
  rPickParent01 : unit01 o.rPickParent
  rMutFirst01 : ∀ i, unit01 (o.rMutFirst i)
  vFirst01 : ∀ i, unit01 (o.vFirst i)
  rFirstB101 : ∀ i, unit01 (o.rFirstB1 i)
  rFirstB201 : ∀ i, unit01 (o.rFirstB2 i)
  rMutCount01 : unit01 o.rMutCount
  countRand_ge : 2 ≤ o.countRand
  countRand_le : o.countRand ≤ 400
  rCountB101 : unit01 o.rCountB1
  rCountB201 : unit01 o.rCountB2
  rMutStep01 : ∀ i, unit01 (o.rMutStep i)
  vStep_range : ∀ i j, -(3/10) ≤ o.vStep i j ∧ o.vStep i j ≤ 3/10
  rStepB101 : ∀ i, unit01 (o.rStepB1 i)
  rStepB201 : ∀ i, unit01 (o.rStepB2 i)
  rMutPause01 : unit01 o.rMutPause
  rPauseVal01 : unit01 o.rPauseVal
  rPauseB101 : unit01 o.rPauseB1
  rPauseB201 : unit01 o.rPauseB2

/-- Fingers step of crossover: random non-empty subset on mutation; otherwise
with probability hotness a 50 percent per-finger filter of the union of the
parents' fingers (one random member of the union if the filter empties it,
none models the ValueError of numpy choice on an empty union); otherwise one
parent's finger list chosen 50/50. -/
def crossover_fingers (hot : ℚ) (o : XOracle) (f1 f2 : List ℕ) : Option (List ℕ) :=
  if mutate hot o.rMutFingers then
    some o.fingersSample
  else if o.rCombine < hot then
    let all_fingers := pySorted (f1 ++ f2).dedup
    let kept := all_fingers.filter (fun f => o.rKeep f < 1/2)
    if kept.isEmpty then
      if all_fingers.isEmpty then none
      else some [all_fingers.getD (o.idxChoice % all_fingers.length) 0]
    else some kept
  else
    some (if o.rPickParent < 1/2 then f1 else f2)

/-- First point step of crossover: per parameter, a fresh uniform value on
mutation, otherwise the interpolation of the parents' first-point values
clipped to the unit interval (none models the IndexError when a parent's
first point lacks the parameter). -/
def crossover_first_point (hot : ℚ) (o : XOracle) (p : ℕ)
    (n1pts n2pts : List (List ℚ)) : Option (List ℚ) :=
  collectSome (fun i =>
    if mutate hot (o.rMutFirst i) then some (o.vFirst i)
    else do
      let p1 ← n1pts.head?
      let p2 ← n2pts.head?
      let v1 ← p1[i]?
      let v2 ← p2[i]?
      pure (npclip (interpolate_value hot (o.rFirstB1 i) (o.rFirstB2 i) v1 v2) 0 1))
    (List.range p)

/-- Point count step of crossover: randint(2, samples-per-second times 8 s)
on mutation, otherwise the truncated interpolation of the parents' point
counts with a floor of 2. -/
def crossover_num_points (hot : ℚ) (o : XOracle) (len1 len2 : ℕ) : ℕ :=
  if mutate hot o.rMutCount then o.countRand
  else
    max 2 (pyInt (interpolate_value hot o.rCountB1 o.rCountB2 (len1 : ℚ) (len2 : ℚ))).toNat

/-- Local finite-difference vector of one parent trajectory at the source
index obtained by mapping step index point_idx proportionally into the parent
(truncated, clamped to the last index, bumped from 0 to 1). none models the
IndexError raised when the parent has fewer than 2 points. -/
def parent_step_vec (p num : ℕ) (pts : List (List ℚ)) (point_idx : ℕ) : Option (List ℚ) := do
  let source_idx0 := (pyInt (((point_idx : ℚ) / (num : ℚ)) * (pts.length : ℚ))).toNat
  let source_idx1 := min source_idx0 (pts.length - 1)
  let source_idx := if source_idx1 = 0 then 1 else source_idx1
  let a ← pts[source_idx]?
  let b ← pts[source_idx - 1]?
  collectSome (fun i => do
    let x ← a[i]?
    let y ← b[i]?
    pure (x - y)) (List.range p)

/-- Step vector of crossover for one generated point: a uniform vector in
the cube of side 0.6 on mutation, otherwise the interpolation of the two
parents' local finite-difference vectors. -/
def crossover_step_vec (hot : ℚ) (o : XOracle) (p num : ℕ)
    (n1pts n2pts : List (List ℚ)) (point_idx : ℕ) : Option (List ℚ) :=
  if mutate hot (o.rMutStep point_idx) then
    some ((List.range p).map (fun i => o.vStep point_idx i))
  else do
    let vec1 ← parent_step_vec p num n1pts point_idx
    let vec2 ← parent_step_vec p num n2pts point_idx
    pure (interpolate_vector hot (o.rStepB1 point_idx) (o.rStepB2 point_idx) vec1 vec2)

/-- Running walk of crossover building the points after the first: each
iteration derives a step vector, adds it to the current point, clips every
component to the unit interval and appends. fuel counts the remaining
iterations, point_idx the Python loop index. -/
def crossover_rest (hot : ℚ) (o : XOracle) (p num : ℕ)
    (n1pts n2pts : List (List ℚ)) : ℕ → ℕ → List ℚ → Option (List (List ℚ))
  | _, 0, _ => some []
  | point_idx, fuel + 1, current => do
      let vec ← crossover_step_vec hot o p num n1pts n2pts point_idx
      let next := List.zipWith (fun c v => npclip (c + v) 0 1) current vec
      let rest ← crossover_rest hot o p num n1pts n2pts (point_idx + 1) fuel next
      pure (next :: rest)

/-- Pause step of crossover: uniform in [0,5) seconds on mutation, otherwise
the interpolation of the parents' pause_after values. -/
def crossover_pause (hot : ℚ) (o : XOracle) (pause1 pause2 : ℚ) : ℚ :=
  if mutate hot o.rMutPause then o.rPauseVal * 5
  else interpolate_value hot o.rPauseB1 o.rPauseB2 pause1 pause2

/-- GenerativeAgent.crossover: combine two parent notes into an offspring
note. none models an uncaught exception of the Python function (IndexError
on an empty or too short parent, ValueError of choice on an empty union). -/
def crossover (hot : ℚ) (o : XOracle) (note1 note2 : PyNote) : Option PyNote := do
  let fp0 ← note1.data_points.head?
  let p := fp0.length
  let new_fingers ← crossover_fingers hot o note1.fingers note2.fingers
  let new_first_point ← crossover_first_point hot o p note1.data_points note2.data_points
  let num_new_points := crossover_num_points hot o note1.data_points.length note2.data_points.length
  let rest ← crossover_rest hot o p num_new_points note1.data_points note2.data_points
      1 (num_new_points - 1) new_first_point
  let new_data_points := new_first_point :: rest
  let new_pause := crossover_pause hot o (note1.pause_after.getD 0) (note2.pause_after.getD 0)
  let duration := if new_data_points.length > 1 then
      ((new_data_points.length : ℚ) - 1) * AGENT_POINT_INTERVAL
    else AGENT_POINT_INTERVAL
  pure { fingers := new_fingers, pause_after := some new_pause, duration := some duration,
         data_points := new_data_points, source := "ai" }

/-- GenerativeAgent.generate_crossovers: count independent crossover calls
from the same parent pair, each with its own fresh randomness. -/
def generate_crossovers (hot : ℚ) (os : ℕ → XOracle) (note1 note2 : PyNote)
    (num_crossovers : ℕ) : List (Option PyNote) :=
  (List.range num_crossovers).map (fun i => crossover hot (os i) note1 note2)

/-- Oracle for one call of GenerativeAgent.select_notes: the mutation draw and
the selection draw of each of the two independent single-note selections. A
draw from a non-empty pool (numpy weighted choice, whose recency weights
2 ^ (phrase - maxPhrase) are all positive, or uniform random.choice) is
modelled by an arbitrary index into the pool, which ranges over exactly the
outcomes the draw can produce. -/
structure SelOracle where
  r1 : ℚ := 1/2
  idx1 : ℕ := 0
  r2 : ℚ := 1/2
  idx2 : ℕ := 0

/-- Helper select_single_note of GenerativeAgent.select_notes: pick the human
pool on a false mutation gate and the ai pool on a true one, fall back to the
whole list when the preferred pool is empty, and draw one member. -/
def select_single_note (hot r : ℚ) (idx : ℕ) (all_notes : List PyNote) : Option PyNote :=
  let use_human := !(mutate hot r)
  if use_human then
    let human0 := all_notes.filter (fun n => n.source == "human")
    let human_notes := if human0.isEmpty then all_notes else human0
    if human_notes.isEmpty then all_notes.head?
    else
      match human_notes.head? with
      | some h0 =>
          if h0.phrase.isSome then human_notes.get? (idx % human_notes.length)
          else human_notes.get? (idx % human_notes.length)
      | none => none
  else
    let ai0 := all_notes.filter (fun n => n.source == "ai")
    let ai_notes := if ai0.isEmpty then all_notes else ai0
    if ai_notes.isEmpty then all_notes.head?
    else ai_notes.get? (idx % ai_notes.length)

/-- GenerativeAgent.select_notes: no selection on an empty list, a note paired
with itself on a singleton, otherwise two independent single-note selections. -/
def select_notes (hot : ℚ) (o : SelOracle) (all_notes : List PyNote) :
    Option (PyNote × PyNote) :=
  if all_notes.isEmpty then none
  else if all_notes.length < 2 then
    match all_notes with
    | [a] => some (a, a)
    | _ => none
  else do
    let note1 ← select_single_note hot o.r1 o.idx1 all_notes
    let note2 ← select_single_note hot o.r2 o.idx2 all_notes
    pure (note1, note2)

/-- Oracle for one call of GenerativeAgent.generate_phrase: the uniform draw
u of numpy uniform(-1,1) and per-iteration selection and crossover oracles. -/
structure GPOracle where
  u : ℚ := 0
  sel : ℕ → SelOracle := fun _ => {}
  xo : ℕ → XOracle := fun _ => {}

/-- Ranges guaranteed for a generate_phrase oracle: u lies in [-1,1] and each
iteration's crossover draws are in range. -/
structure GPOracle.Valid (o : GPOracle) : Prop where
  u_ge : -1 ≤ o.u
  u_le : o.u ≤ 1
  xo_valid : ∀ i, (o.xo i).Valid

/-- Validity filter of generate_phrase: keeps the notes whose data_points
list is present and non-empty. -/
def valid_notes_filter (all_notes : List PyNote) : List PyNote :=
  all_notes.filter (fun note => !note.data_points.isEmpty)

/-- Target note count of generate_phrase: max(1, int(n + u * n/2)) where n is
the size of the just-ended phrase and int truncates toward zero. -/
def generate_phrase_target (n : ℕ) (u : ℚ) : ℕ :=
  max 1 (pyInt ((n : ℚ) + u * ((n : ℚ) / 2))).toNat

/-- Generation loop of generate_phrase: each iteration selects a parent pair
(a failed selection breaks the loop) and attempts one crossover (a raised
crossover is caught and the iteration skipped). -/
def gen_loop (hot : ℚ) (o : GPOracle) (valid_notes : List PyNote) : ℕ → ℕ → List PyNote
  | _, 0 => []
  | i, fuel + 1 =>
    match select_notes hot (o.sel i) valid_notes with
    | none => []
    | some (note1, note2) =>
      match crossover hot (o.xo i) note1 note2 with
      | none => gen_loop hot o valid_notes (i + 1) fuel
      | some new_note => new_note :: gen_loop hot o valid_notes (i + 1) fuel

/-- GenerativeAgent.generate_phrase: an empty answer when the just-ended
phrase has no notes or no note has data points, otherwise the generation loop
run for the target count. -/
def generate_phrase (hot : ℚ) (o : GPOracle) (all_notes : List PyNote)
    (last_phrase_num : ℕ) : List PyNote :=
  let last_phrase_notes := all_notes.filter (fun n => n.phrase == some last_phrase_num)
  let n := last_phrase_notes.length
  if n = 0 then []
  else
    let valid_notes := valid_notes_filter all_notes
    if valid_notes.isEmpty then []
    else gen_loop hot o valid_notes 0 (generate_phrase_target n o.u)

/-- One OSC emission of the playback driver: either the one-time fingers
message (a comma-joined string) or one scalar parameter message. -/
inductive OscMsg
  | fingers (s : String)
  | param (addr : String) (v : ℚ)
deriving DecidableEq

/-- Comma-joined finger list sent on /fingers, the empty string when no
finger is active. -/
def fingers_string (fingers : List ℕ) : String :=
  if fingers.isEmpty then "" else String.intercalate "," (fingers.map toString)

/-- The five parameter messages play_note emits for one data point. -/
def point_msgs (pt : List ℚ) : List OscMsg :=
  [OscMsg.param "/x" (pt.getD 0 0), OscMsg.param "/y" (pt.getD 1 0),
   OscMsg.param "/z" (pt.getD 2 0), OscMsg.param "/angle" (pt.getD 3 0),
   OscMsg.param "/velocity" (pt.getD 4 0)]

/-- Observable result of GenerativeAgent.play_note: the messages emitted to
the primary sink in order, and the returned durations. The durations of a
played non-empty note are wall-clock measurements (time.time() differences
around the sleeps), modelled as none; the early return on an empty note
returns the literal zeros of the source. -/
structure PlayResult where
  msgs : List OscMsg
  note_duration : Option ℚ
  total_duration : Option ℚ
deriving DecidableEq

/-- GenerativeAgent.play_note: immediate return with zero durations and no
emission on an empty note, otherwise one fingers message followed by the per
point parameter messages in point order. -/
def play_note (note : PyNote) : PlayResult :=
  if note.data_points.isEmpty then
    { msgs := [], note_duration := some 0, total_duration := some 0 }
  else
    { msgs := note.data_points.foldl (fun acc pt => acc ++ point_msgs pt)
        [OscMsg.fingers (fingers_string note.fingers)],
      note_duration := none, total_duration := none }

/-- NoteRecorder constants: POINT_INTERVAL (minimum sample spacing 0.0002 s),
PAUSE_PHRASE_THRESHOLD and LAST_NOTE_PAUSE (both 3.0 s). -/
def REC_POINT_INTERVAL : ℚ := 0.0002

/-- Pause duration that seals a phrase. -/
def PAUSE_PHRASE_THRESHOLD : ℚ := 3.0

/-- Pause stamped on the last note of a sealed phrase. -/
def LAST_NOTE_PAUSE : ℚ := 3.0

/-- Mutable state of a NoteRecorder. -/
structure RecState where
  notes : List PyNote := []
  current_note : Option PyNote := none
  last_record_time : Option ℚ := none
  pause_start_time : Option ℚ := none
  phrase_num : ℕ := 1
  pause_triggered : Bool := false
  last_phrase_ended : Option ℕ := none
deriving DecidableEq

/-- Update of the last element of a list (a Python assignment to l[-1]). -/
def updateLast (f : α → α) : List α → List α
  | [] => []
  | [a] => [f a]
  | a :: b :: rest => a :: updateLast f (b :: rest)

/-- NoteRecorder.save_current_note: stamp the open note's duration as last
sample timestamp minus start time, default a missing pause_after to 0, keep
the note only when the duration reaches 0.1 s, and close it. The source
indexes timestamps[-1], which is never empty for an open note; the model
reads the last element with default 0. -/
def save_current_note (s : RecState) : RecState :=
  match s.current_note with
  | none => s
  | some cur =>
      let duration := cur.timestamps.getLastD 0 - cur.start_time
      let cur' := { cur with duration := some duration,
                             pause_after := match cur.pause_after with
                                            | none => some 0
                                            | some pa => some pa }
      { s with notes := if duration ≥ 1/10 then s.notes ++ [cur'] else s.notes,
               current_note := none }

/-- NoteRecorder.start_note: close any open note, back-fill the previous
note's pause_after from the gap to this start when it is unset or zero,
re-arm the pause trigger, and open a new note with one initial sample at
relative time 0. -/
def start_note (fingers : List ℕ) (x y z angle velocity timestamp : ℚ)
    (s : RecState) : RecState :=
  let s := if s.current_note.isSome then save_current_note s else s
  let s := { s with notes := updateLast (fun last_note =>
      if ¬last_note.timestamps.isEmpty ∧ last_note.pause_after.getD 0 = 0 then
        { last_note with pause_after := some (max 0 (timestamp - last_note.timestamps.getLastD 0)) }
      else last_note) s.notes }
  { s with pause_start_time := none, pause_triggered := false,
           current_note := some { fingers := fingers, start_time := timestamp,
                                  data_points := [[x, y, z, angle, velocity, 0]],
                                  timestamps := [timestamp], source := "human" },
           last_record_time := some timestamp }

/-- NoteRecorder.record_point: append a sample to the open note when at least
POINT_INTERVAL has elapsed since the last recorded sample. -/
def record_point (x y z angle velocity timestamp : ℚ) (s : RecState) : RecState :=
  match s.current_note with
  | none => s
  | some cur =>
      if timestamp - s.last_record_time.getD 0 ≥ REC_POINT_INTERVAL then
        let relative_time := timestamp - cur.start_time
        { s with current_note := some { cur with
                   data_points := cur.data_points ++ [[x, y, z, angle, velocity, relative_time]],
                   timestamps := cur.timestamps ++ [timestamp] },
                 last_record_time := some timestamp }
      else s

/-- Phrase tagging step of NoteRecorder.end_phrase: every note without a
phrase key receives the current phrase number. -/
def end_phrase_tagged (s : RecState) : List PyNote :=
  s.notes.map (fun note => if note.phrase.isNone then
    { note with phrase := some s.phrase_num } else note)

/-- Whether end_phrase tagged at least one note. -/
def end_phrase_assigned_any (s : RecState) : Bool :=
  s.notes.any (fun note => note.phrase.isNone)

/-- Notes list after end_phrase: phrase numbers assigned and the last note's
pause_after set to the end-of-phrase pause. -/
def end_phrase_notes (s : RecState) : List PyNote :=
  updateLast (fun n => { n with pause_after := some LAST_NOTE_PAUSE }) (end_phrase_tagged s)

/-- NoteRecorder.end_phrase, state effect: tag the untagged notes, stamp the
last note's pause_after, advance the phrase counter only if a note was newly
tagged, clear the pause timer and trigger, and record the ended phrase
number. The cohesion it also computes only feeds the agent's hotness and is
modelled separately (end_phrase_cohesion below). -/
def end_phrase (timestamp : ℚ) (s : RecState) : RecState :=
  { s with notes := end_phrase_notes s,
           phrase_num := if end_phrase_assigned_any s then s.phrase_num + 1 else s.phrase_num,
           pause_start_time := none,
           pause_triggered := false,
           last_phrase_ended := some s.phrase_num }

/-- NoteRecorder.pause: close any open note; start the pause timer on the
first call of a silence episode; on later calls fire end_phrase when the
elapsed pause reaches the threshold and the trigger flag is clear, then set
the flag (after end_phrase has already cleared both the flag and the timer). -/
def pause (timestamp : ℚ) (s : RecState) : RecState :=
  let s := if s.current_note.isSome then save_current_note s else s
  match s.pause_start_time with
  | none => { s with pause_start_time := some timestamp, pause_triggered := false }
  | some pause_start =>
      if timestamp - pause_start ≥ PAUSE_PHRASE_THRESHOLD ∧ s.pause_triggered = false then
        { end_phrase timestamp s with pause_triggered := true }
      else s

/-- Observer of the branch pause takes: true exactly when this pause call
reaches the end_phrase trigger. -/
def pause_fires (timestamp : ℚ) (s : RecState) : Bool :=
  let s := if s.current_note.isSome then save_current_note s else s
  match s.pause_start_time with
  | none => false
  | some pause_start =>
      if timestamp - pause_start ≥ PAUSE_PHRASE_THRESHOLD ∧ s.pause_triggered = false then
        true
      else false

/-- Run of a sequence of pause calls counting how many of them trigger
end_phrase. -/
def run_pauses (s : RecState) (timestamps : List ℚ) : RecState × ℕ :=
  timestamps.foldl (fun st t =>
    (pause t st.1, if pause_fires t st.1 then st.2 + 1 else st.2)) (s, 0)

/-- Back-fill pass of NoteRecorder.finalize: every note but the last whose
pause_after is unset or zero receives the gap to the next note's start. -/
def backfill_pauses : List PyNote → List PyNote
  | a :: b :: rest =>
      (if a.pause_after.getD 0 = 0 then
        { a with pause_after := some (b.start_time - a.timestamps.getLastD 0) }
      else a) :: backfill_pauses (b :: rest)
  | l => l

/-- NoteRecorder.finalize: close any open note and back-fill pause gaps (the
source also defaults a missing source tag, which the model's source field
always carries). -/
def finalize (s : RecState) : RecState :=
  let s := if s.current_note.isSome then save_current_note s else s
  { s with notes := backfill_pauses s.notes }

/-- The 5-dimensional trajectory numpy builds from a note: the first five
components (x, y, z, angle, velocity) of every data point, as reals. The
source destructures 6-tuples, so the model agrees with it on notes whose
points carry 6 components. -/
def traj (note : PyNote) : List (List ℝ) :=
  note.data_points.map (fun pt => (pt.take 5).map (fun q => (q : ℝ)))

/-- numpy diff along axis 0: consecutive difference vectors of a trajectory. -/
def vdiffs (t : List (List ℝ)) : List (List ℝ) :=
  List.zipWith (fun a b => List.zipWith (fun x y => y - x) a b) t t.tail

/-- Euclidean norm of a vector (numpy linalg.norm). -/
noncomputable def vnorm (v : List ℝ) : ℝ :=
  Real.sqrt ((v.map (fun x => x ^ 2)).sum)

/-- Arc length of a trajectory: sum of the norms of its difference vectors. -/
noncomputable def path_length (t : List (List ℝ)) : ℝ :=
  ((vdiffs t).map vnorm).sum

/-- numpy mean along axis 0 of the difference vectors: componentwise sum over
count, on the five parameter components. -/
noncomputable def avg_dir (t : List (List ℝ)) : List ℝ :=
  (List.range 5).map (fun i =>
    (((vdiffs t).map (fun v => v.getD i 0)).sum) / ((vdiffs t).length : ℝ))

/-- Dot product of two vectors. -/
def dot (v w : List ℝ) : ℝ := (List.zipWith (fun x y => x * y) v w).sum

/-- NoteRecorder.note_similarity: 0.3 times the Jaccard index of the finger
sets (0 if either is empty), plus 0.3 times the ratio of the shorter to the
longer path length (0 if either is 0), plus 0.4 times the cosine similarity
of the mean step vectors remapped to the unit interval (0 if either mean
norm is 0, as in the source where the numpy comparisons with NaN of an empty
mean are false). -/
noncomputable def note_similarity (note1 note2 : PyNote) : ℝ :=
  let fingers1 := note1.fingers.toFinset
  let fingers2 := note2.fingers.toFinset
  let finger_sim : ℝ :=
    if fingers1.Nonempty ∧ fingers2.Nonempty then
      ((fingers1 ∩ fingers2).card : ℝ) / ((fingers1 ∪ fingers2).card : ℝ)
    else 0
  let traj1 := traj note1
  let traj2 := traj note2
  let path1 := path_length traj1
  let path2 := path_length traj2
  let path_ratio := if 0 < path1 ∧ 0 < path2 then min path1 path2 / max path1 path2 else 0
  let avg_dir1 := avg_dir traj1
  let avg_dir2 := avg_dir traj2
  let norm1 := vnorm avg_dir1
  let norm2 := vnorm avg_dir2
  let direction_sim :=
    if 0 < norm1 ∧ 0 < norm2 then (dot avg_dir1 avg_dir2 / (norm1 * norm2) + 1) / 2
    else 0
  0.3 * finger_sim + 0.3 * path_ratio + 0.4 * direction_sim

/-- Similarity list end_phrase builds: one entry per consecutive pair of the
whole notes list (the Python loop for i in range(len(notes) - 1)). -/
noncomputable def consecutive_sims : List PyNote → List ℝ
  | a :: b :: rest => note_similarity a b :: consecutive_sims (b :: rest)
  | _ => []

/-- Phrase cohesion computed by end_phrase: numpy mean of the similarity
list, 0 when the list is empty. -/
noncomputable def phrase_cohesion (notes : List PyNote) : ℝ :=
  let sims := consecutive_sims notes
  if sims.isEmpty then 0 else sims.sum / (sims.length : ℝ)

/-- Cohesion value end_phrase computes: phrase cohesion of the notes list
after tagging and the last-note pause stamp (neither of which alters fingers
or data points). -/
noncomputable def end_phrase_cohesion (s : RecState) : ℝ :=
  phrase_cohesion (end_phrase_notes s)

/-- GenerativeAgent.set_hotness: the new hotness value, clamped to the unit
interval. -/
noncomputable def set_hotness (hotness : ℝ) : ℝ := max 0 (min 1 hotness)

/-- Hotness of the agent after end_phrase: when the agent is enabled, the
cohesion is mapped through 2 * (0.8 - cohesion), clamped, and passed to
set_hotness (which clamps again); otherwise the agent's hotness is
untouched. -/
noncomputable def end_phrase_agent_hotness (enable_agent : Bool) (agent_hotness : ℝ)
    (s : RecState) : ℝ :=
  if enable_agent then set_hotness (max 0 (min 1 (2 * (0.8 - end_phrase_cohesion s))))
  else agent_hotness

theorem foldl_append_flatMap {α β : Type} (f : α → List β) :
    ∀ (l : List α) (init : List β),
      l.foldl (fun acc a => acc ++ f a) init = init ++ l.flatMap f
  | [], init => by simp
  | a :: t, init => by
      simp [List.foldl_cons, foldl_append_flatMap f t (init ++ f a), List.append_assoc]

theorem point_msgs_length (pt : List ℚ) : (point_msgs pt).length = 5 := rfl

theorem flatMap_point_msgs_no_fingers (pts : List (List ℚ)) :
    (pts.flatMap point_msgs).filter (fun m => match m with
      | OscMsg.fingers _ => true | OscMsg.param _ _ => false) = [] := by
  induction pts with
  | nil => simp
  | cons pt t ih => simp [point_msgs, List.filter_append, ih]

/-- C10: play_note called on a note with empty data_points returns
immediately with both durations 0.0 and emits no message at all, not even
the fingers message; on a note with non-empty data_points it emits exactly
one fingers message followed by exactly 5 parameter messages per data point,
in point order. (The length hypothesis restricts to points on which the
source's point[0..4] indexing does not raise.) -/
theorem play_note_spec (note : PyNote)
    (hlen : ∀ pt ∈ note.data_points, 5 ≤ pt.length) :
    (note.data_points = [] →
      play_note note = { msgs := [], note_duration := some 0, total_duration := some 0 }) ∧
    (note.data_points ≠ [] →
      (play_note note).msgs
        = OscMsg.fingers (fingers_string note.fingers) :: note.data_points.flatMap point_msgs ∧
      (play_note note).msgs.length = 1 + 5 * note.data_points.length ∧
      ((play_note note).msgs.filter (fun m => match m with
        | OscMsg.fingers _ => true | OscMsg.param _ _ => false)).length = 1) := by
  constructor
  · intro h
    simp [play_note, h]
  · intro h
    have hne : note.data_points.isEmpty = false := by
      simpa [List.isEmpty_iff] using h
    have hmsgs : (play_note note).msgs
        = OscMsg.fingers (fingers_string note.fingers) :: note.data_points.flatMap point_msgs := by
      simp [play_note, hne, foldl_append_flatMap]
    refine ⟨hmsgs, ?_, ?_⟩
    · rw [hmsgs]
      simp only [List.length_cons, List.length_flatMap]
      have hfun : (List.length ∘ point_msgs) = fun (_ : List ℚ) => 5 :=
        funext fun pt => rfl
      rw [hfun, List.map_const', List.sum_replicate, smul_eq_mul]
      ring
    · rw [hmsgs]
      rw [List.filter_cons]
      simp [flatMap_point_msgs_no_fingers]

theorem play_note_spec_witness :
    play_note {} = { msgs := [], note_duration := some 0, total_duration := some 0 } ∧
    (play_note { fingers := [1], data_points := [[0, 0, 0, 0, 0]] }).msgs
      = OscMsg.fingers (fingers_string [1]) :: ([[(0:ℚ), 0, 0, 0, 0]].flatMap point_msgs) := by
  constructor
  · exact (play_note_spec {} (by simp)).1 rfl
  · exact ((play_note_spec { fingers := [1], data_points := [[0, 0, 0, 0, 0]] }
      (by intro pt hpt; simp at hpt; subst hpt; norm_num)).2 (by simp)).1

theorem pool_pick_mem (l pool : List PyNote) (idx : ℕ) (hpool : pool ≠ [])
    (hsub : ∀ x ∈ pool, x ∈ l) :
    ∃ m, pool.get? (idx % pool.length) = some m ∧ m ∈ l := by
  have hlen : 0 < pool.length := List.length_pos.mpr hpool
  have hidx : idx % pool.length < pool.length := Nat.mod_lt _ hlen
  exact ⟨pool.get ⟨idx % pool.length, hidx⟩, List.get?_eq_get hidx,
    hsub _ (List.get_mem pool _ hidx)⟩

theorem human_pick_mem (l pool : List PyNote) (idx : ℕ) (hne : pool ≠ [])
    (hsub : ∀ x ∈ pool, x ∈ l) :
    ∃ m, (match pool.head? with
          | some h0 => if h0.phrase.isSome then pool.get? (idx % pool.length)
                       else pool.get? (idx % pool.length)
          | none => (none : Option PyNote)) = some m ∧ m ∈ l := by
  rcases pool with _ | ⟨a, t⟩
  · exact absurd rfl hne
  · simp only [List.head?_cons, ite_self]
    exact pool_pick_mem l (a :: t) idx (by simp) hsub

theorem select_single_note_mem (hot r : ℚ) (idx : ℕ) (l : List PyNote) (h : l ≠ []) :
    ∃ m, select_single_note hot r idx l = some m ∧ m ∈ l := by
  have hle : l.isEmpty = false := by simpa [List.isEmpty_iff] using h
  unfold select_single_note
  cases hmut : mutate hot r with
  | false =>
    simp only [hmut, Bool.not_false, if_true]
    cases hfe : (l.filter (fun n => n.source == "human")).isEmpty with
    | true =>
      simp only [hfe, if_true, hle, Bool.false_eq_true, if_false]
      exact human_pick_mem l l idx h (fun x hx => hx)
    | false =>
      have hfne : l.filter (fun n => n.source == "human") ≠ [] := by
        intro hc
        rw [hc] at hfe
        simp at hfe
      simp only [hfe, Bool.false_eq_true, if_false]
      exact human_pick_mem l (l.filter (fun n => n.source == "human")) idx hfne
        (fun x hx => List.mem_of_mem_filter hx)
  | true =>
    simp only [hmut, Bool.not_true, Bool.false_eq_true, if_false]
    cases hfe : (l.filter (fun n => n.source == "ai")).isEmpty with
    | true =>
      simp only [hfe, if_true, hle, Bool.false_eq_true, if_false]
      exact pool_pick_mem l l idx h (fun x hx => hx)
    | false =>
      have hfne : l.filter (fun n => n.source == "ai") ≠ [] := by
        intro hc
        rw [hc] at hfe
        simp at hfe
      simp only [hfe, Bool.false_eq_true, if_false]
      exact pool_pick_mem l (l.filter (fun n => n.source == "ai")) idx hfne
        (fun x hx => List.mem_of_mem_filter hx)

/-- C7: select_notes on an empty note list returns no selection; on a list
with exactly one note it returns that note paired with itself; on a list of
two or more notes it returns a pair of notes drawn from the list (for every
hotness and every outcome of the draws). -/
theorem select_notes_spec (hot : ℚ) (o : SelOracle) (all_notes : List PyNote) :
    (all_notes = [] → select_notes hot o all_notes = none) ∧
    (∀ a, all_notes = [a] → select_notes hot o all_notes = some (a, a)) ∧
    (2 ≤ all_notes.length →
      ∃ n1 n2, select_notes hot o all_notes = some (n1, n2) ∧
        n1 ∈ all_notes ∧ n2 ∈ all_notes) := by
  refine ⟨?_, ?_, ?_⟩
  · intro h
    simp [select_notes, h]
  · intro a h
    subst h
    simp [select_notes]
  · intro h2
    have hne : all_notes ≠ [] := by
      intro hc
      rw [hc] at h2
      simp at h2
    have hle : all_notes.isEmpty = false := by simpa [List.isEmpty_iff] using hne
    have hlt : ¬ all_notes.length < 2 := by omega
    obtain ⟨n1, he1, hm1⟩ := select_single_note_mem hot o.r1 o.idx1 all_notes hne
    obtain ⟨n2, he2, hm2⟩ := select_single_note_mem hot o.r2 o.idx2 all_notes hne
    refine ⟨n1, n2, ?_, hm1, hm2⟩
    simp [select_notes, hle, hlt, he1, he2]

theorem select_notes_spec_witness :
    select_notes 0 {} [] = none ∧
    select_notes 0 {} [({} : PyNote)] = some ({}, ({} : PyNote)) ∧
    ∃ n1 n2, select_notes 0 {} [({} : PyNote), { source := "ai" }] = some (n1, n2) ∧
      n1 ∈ [({} : PyNote), { source := "ai" }] ∧ n2 ∈ [({} : PyNote), { source := "ai" }] :=
  ⟨(select_notes_spec 0 {} []).1 rfl,
   (select_notes_spec 0 {} [({} : PyNote)]).2.1 {} rfl,
   (select_notes_spec 0 {} [({} : PyNote), { source := "ai" }]).2.2 (by simp)⟩

theorem pause_after_default (pa : Option ℚ) :
    (match pa with
     | none => some (0 : ℚ)
     | some x => some x) = some (pa.getD 0) := by
  cases pa <;> rfl

/-- C6: when an open note is closed, its duration is stamped as the last
sample timestamp minus the start time, and the note is appended to the notes
list if and only if that duration reaches 0.1 s; a shorter note is discarded
and the notes list is unchanged (and the open slot is cleared either way).
start_note, pause and finalize all close an open note through this
function. -/
theorem save_current_note_spec (s : RecState) (cur : PyNote) (tlast : ℚ)
    (hc : s.current_note = some cur) (hts : cur.timestamps ≠ [])
    (hlast : cur.timestamps.getLastD 0 = tlast) :
    (save_current_note s).current_note = none ∧
    ((1/10 : ℚ) ≤ tlast - cur.start_time ↔
      (save_current_note s).notes = s.notes ++
        [{ cur with duration := some (tlast - cur.start_time),
                    pause_after := some (cur.pause_after.getD 0) }]) ∧
    (tlast - cur.start_time < 1/10 ↔ (save_current_note s).notes = s.notes) := by
  have happ : ∀ l : List PyNote, ∀ x : PyNote, l ++ [x] ≠ l := by
    intro l x he
    have := congrArg List.length he
    simp at this
  unfold save_current_note
  rw [hc]
  simp only [hlast, pause_after_default]
  by_cases hd : (1/10 : ℚ) ≤ tlast - cur.start_time
  · rw [if_pos (show tlast - cur.start_time ≥ 1/10 from hd)]
    exact ⟨trivial, iff_of_true hd rfl,
      iff_of_false (by linarith) (fun he => happ s.notes _ he)⟩
  · rw [if_neg (show ¬ tlast - cur.start_time ≥ 1/10 from hd)]
    exact ⟨trivial, iff_of_false hd (fun he => happ s.notes _ he.symm),
      iff_of_true (by linarith [not_le.mp hd]) rfl⟩

theorem save_current_note_spec_witness :
    (save_current_note { current_note := some { start_time := 0, timestamps := [0, 1/5] } }).current_note = none ∧
    ((1/10 : ℚ) ≤ (1/5 : ℚ) - ({ start_time := 0, timestamps := [0, 1/5] } : PyNote).start_time ↔
      (save_current_note { current_note := some { start_time := 0, timestamps := [0, 1/5] } }).notes
        = [] ++ [{ ({ start_time := 0, timestamps := [0, 1/5] } : PyNote) with
                    duration := some ((1/5 : ℚ) - ({ start_time := 0, timestamps := [0, 1/5] } : PyNote).start_time),
                    pause_after := some (({ start_time := 0, timestamps := [0, 1/5] } : PyNote).pause_after.getD 0) }]) :=
  let cur : PyNote := { start_time := 0, timestamps := [0, 1/5] }
  let s : RecState := { current_note := some cur }
  ⟨(save_current_note_spec s cur (1/5) rfl (by simp) rfl).1,
   (save_current_note_spec s cur (1/5) rfl (by simp) rfl).2.1⟩

/-- C8: when the generative agent is enabled, every phrase closure sets the
agent's hotness to exactly the clamp of 2 * (0.8 - cohesion) to the unit
interval: cohesion at least 0.8 yields hotness 0, cohesion at most 0.3
yields hotness 1, and in between the value is the linear map
2 * (0.8 - cohesion). -/
theorem end_phrase_sets_hotness (s : RecState) (enable_agent : Bool) (agent_hotness : ℝ)
    (h : enable_agent = true) :
    end_phrase_agent_hotness enable_agent agent_hotness s
      = max 0 (min 1 (2 * (0.8 - end_phrase_cohesion s))) ∧
    (0.8 ≤ end_phrase_cohesion s → end_phrase_agent_hotness enable_agent agent_hotness s = 0) ∧
    (end_phrase_cohesion s ≤ 0.3 → end_phrase_agent_hotness enable_agent agent_hotness s = 1) ∧
    (0.3 ≤ end_phrase_cohesion s → end_phrase_cohesion s ≤ 0.8 →
      end_phrase_agent_hotness enable_agent agent_hotness s
        = 2 * (0.8 - end_phrase_cohesion s)) := by
  subst h
  have h1 : end_phrase_agent_hotness true agent_hotness s
      = max 0 (min 1 (2 * (0.8 - end_phrase_cohesion s))) := by
    unfold end_phrase_agent_hotness set_hotness
    rw [if_pos rfl]
    have hy1 : max 0 (min 1 (2 * (0.8 - end_phrase_cohesion s))) ≤ 1 :=
      max_le (by norm_num) (min_le_left _ _)
    have hy0 : (0 : ℝ) ≤ max 0 (min 1 (2 * (0.8 - end_phrase_cohesion s))) :=
      le_max_left _ _
    rw [min_eq_right hy1, max_eq_right hy0]
  refine ⟨h1, ?_, ?_, ?_⟩
  · intro hc
    rw [h1]
    have hx0 : 2 * (0.8 - end_phrase_cohesion s) ≤ 0 := by linarith
    rw [min_eq_right (by linarith : 2 * (0.8 - end_phrase_cohesion s) ≤ 1),
        max_eq_left hx0]
  · intro hc
    rw [h1]
    have hx1 : (1 : ℝ) ≤ 2 * (0.8 - end_phrase_cohesion s) := by linarith
    rw [min_eq_left hx1]
    exact max_eq_right (by norm_num)
  · intro hc1 hc2
    rw [h1]
    have hx0 : (0 : ℝ) ≤ 2 * (0.8 - end_phrase_cohesion s) := by linarith
    have hx1 : 2 * (0.8 - end_phrase_cohesion s) ≤ 1 := by linarith
    rw [min_eq_right hx1, max_eq_right hx0]

theorem end_phrase_sets_hotness_witness :
    end_phrase_agent_hotness true 0 {}
      = max 0 (min 1 (2 * (0.8 - end_phrase_cohesion {}))) :=
  (end_phrase_sets_hotness {} true 0 rfl).1

/-- C3 (code bug): within one silence episode, pause calls at 0 s, 3 s, 4 s
and 7 s with no intervening start_note trigger end_phrase twice, not at most
once: the call at 3 s fires, but end_phrase resets pause_start_time, so the
call at 4 s restarts the timer with the trigger flag cleared and the call at
7 s fires again. After the first fire the state already has the timer
cleared and only the flag set, which the next call immediately re-arms. -/
theorem pause_double_fire :
    (run_pauses {} [0, 3, 4, 7]).2 = 2 ∧
    (run_pauses {} [0, 3]).1.pause_start_time = none ∧
    (run_pauses {} [0, 3]).1.pause_triggered = true ∧
    (run_pauses {} [0, 3, 4]).1.pause_start_time = some 4 ∧
    (run_pauses {} [0, 3, 4]).1.pause_triggered = false := by
  norm_num [run_pauses, pause, pause_fires, save_current_note, end_phrase,
    end_phrase_notes, end_phrase_tagged, end_phrase_assigned_any, updateLast,
    PAUSE_PHRASE_THRESHOLD, List.foldl]

/-- C4 counterexample: at a 4-note phrase and a uniform draw u = 0.9 the
source computes max(1, int(4 + 0.9 * 2)) = max(1, int(5.8)) = 5 target
notes, while the claimed formula max(1, round(5.8)) gives 6. -/
theorem generate_phrase_target_not_round :
    generate_phrase_target 4 (9/10) = 5 ∧
    max 1 (round ((4 : ℚ) + (9/10) * ((4 : ℚ) / 2))).toNat = 6 := by
  constructor
  · unfold generate_phrase_target pyInt
    norm_num
    rfl
  · rw [round_eq]
    norm_num
    rfl

theorem mem_insertSorted (a x : ℕ) : ∀ l : List ℕ, x ∈ insertSorted a l ↔ x = a ∨ x ∈ l
  | [] => by simp [insertSorted]
  | b :: t => by
      unfold insertSorted
      by_cases h : a ≤ b
      · simp [h]
      · simp only [h, if_false, List.mem_cons, mem_insertSorted a x t]
        tauto

theorem mem_pySorted (x : ℕ) : ∀ l : List ℕ, x ∈ pySorted l ↔ x ∈ l
  | [] => by simp [pySorted]
  | b :: t => by
      have ht := mem_pySorted x t
      unfold pySorted at ht ⊢
      rw [List.foldr_cons, mem_insertSorted, ht, List.mem_cons]

theorem pySorted_ne_of_ne (l : List ℕ) (h : l ≠ []) : pySorted l ≠ [] := by
  rcases l with _ | ⟨a, t⟩
  · exact absurd rfl h
  · intro hc
    have : a ∈ pySorted (a :: t) := (mem_pySorted a (a :: t)).mpr (by simp)
    rw [hc] at this
    simp at this

theorem getD_mem_of_lt (l : List ℕ) (n d : ℕ) (h : n < l.length) : l.getD n d ∈ l := by
  rw [List.getD_eq_getElem?_getD, List.getElem?_eq_getElem h]
  exact List.getElem_mem h

theorem mem_zipWith_exists (f : ℚ → ℚ → ℚ) :
    ∀ (l1 l2 : List ℚ) (x : ℚ), x ∈ List.zipWith f l1 l2 → ∃ a b, x = f a b
  | [], _, x, h => by simp at h
  | _ :: _, [], x, h => by simp at h
  | a :: t1, b :: t2, x, h => by
      rcases List.mem_cons.mp (by simpa using h) with h1 | h2
      · exact ⟨a, b, h1⟩
      · exact mem_zipWith_exists f t1 t2 x h2

theorem collectSome_spec (f : ℕ → Option ℚ) (P : ℚ → Prop) :
    ∀ l : List ℕ, (∀ i ∈ l, ∃ v, f i = some v ∧ P v) →
      ∃ out, collectSome f l = some out ∧ out.length = l.length ∧ ∀ x ∈ out, P x
  | [], _ => ⟨[], rfl, rfl, by simp⟩
  | i :: is, h => by
      obtain ⟨v, hv, hPv⟩ := h i (by simp)
      obtain ⟨out, hout, hlen, hP⟩ := collectSome_spec f P is (fun j hj => h j (by simp [hj]))
      refine ⟨v :: out, by simp [collectSome, hv, hout], by simp [hlen], ?_⟩
      intro x hx
      rcases List.mem_cons.mp hx with h1 | h2
      · exact h1 ▸ hPv
      · exact hP x h2

theorem npclip01_bounds (v : ℚ) : 0 ≤ npclip v 0 1 ∧ npclip v 0 1 ≤ 1 := by
  unfold npclip
  exact ⟨le_min (le_max_right v 0) (by norm_num), min_le_right _ _⟩

theorem interpolate_value_bounds (hot r1 r2 v1 v2 : ℚ) (h2 : unit01 r2) :
    min v1 v2 ≤ interpolate_value hot r1 r2 v1 v2 ∧
    interpolate_value hot r1 r2 v1 v2 ≤ max v1 v2 := by
  obtain ⟨hb0, hb1⟩ := h2
  unfold interpolate_value
  dsimp only
  by_cases hr : hot < r1
  · rw [if_pos hr]
    by_cases hc : r2 < 1/2
    · rw [if_pos hc]
      constructor
      · calc min v1 v2 ≤ v1 := min_le_left _ _
          _ = v1 + 0 * (v2 - v1) := by ring
      · calc v1 + 0 * (v2 - v1) = v1 := by ring
          _ ≤ max v1 v2 := le_max_left _ _
    · rw [if_neg hc]
      constructor
      · calc min v1 v2 ≤ v2 := min_le_right _ _
          _ = v1 + 1 * (v2 - v1) := by ring
      · calc v1 + 1 * (v2 - v1) = v2 := by ring
          _ ≤ max v1 v2 := le_max_right _ _
  · rw [if_neg hr]
    constructor
    · rcases le_total v1 v2 with h | h
      · rw [min_eq_left h]
        nlinarith
      · rw [min_eq_right h]
        nlinarith
    · rcases le_total v1 v2 with h | h
      · rw [max_eq_right h]
        nlinarith
      · rw [max_eq_left h]
        nlinarith

theorem crossover_fingers_spec (hot : ℚ) (o : XOracle) (f1 f2 : List ℕ)
    (hv : o.Valid) (hf1 : f1 ≠ []) (hf2 : f2 ≠ [])
    (hm1 : ∀ f ∈ f1, f ∈ ([1, 2, 3, 4] : List ℕ))
    (hm2 : ∀ f ∈ f2, f ∈ ([1, 2, 3, 4] : List ℕ)) :
    ∃ fl, crossover_fingers hot o f1 f2 = some fl ∧ fl ≠ [] ∧
      ∀ f ∈ fl, f ∈ ([1, 2, 3, 4] : List ℕ) := by
  have hall_ne : pySorted (f1 ++ f2).dedup ≠ [] := by
    apply pySorted_ne_of_ne
    intro hc
    have : f1 ++ f2 = [] := by
      rcases hd : f1 ++ f2 with _ | ⟨a, t⟩
      · rfl
      · have : a ∈ (f1 ++ f2).dedup := by
          rw [List.mem_dedup, hd]
          simp
        rw [hc] at this
        simp at this
    rcases f1 with _ | _
    · exact hf1 rfl
    · simp at this
  have hall_mem : ∀ f ∈ pySorted (f1 ++ f2).dedup, f ∈ ([1, 2, 3, 4] : List ℕ) := by
    intro f hf
    rw [mem_pySorted, List.mem_dedup, List.mem_append] at hf
    rcases hf with h | h
    · exact hm1 f h
    · exact hm2 f h
  unfold crossover_fingers
  cases hmut : mutate hot o.rMutFingers with
  | true =>
    exact ⟨o.fingersSample, by rw [if_pos rfl], hv.fingersSample_ne, hv.fingersSample_mem⟩
  | false =>
    rw [if_neg (by simp)]
    by_cases hcomb : o.rCombine < hot
    · rw [if_pos hcomb]
      by_cases hkept : ((pySorted (f1 ++ f2).dedup).filter (fun f => o.rKeep f < 1/2)).isEmpty
      · rw [if_pos hkept]
        have hne : (pySorted (f1 ++ f2).dedup).isEmpty = false := by
          simpa [List.isEmpty_iff] using hall_ne
        rw [if_neg (by simp [hne])]
        have hlen : 0 < (pySorted (f1 ++ f2).dedup).length :=
          List.length_pos.mpr hall_ne
        have hmem := getD_mem_of_lt (pySorted (f1 ++ f2).dedup)
          (o.idxChoice % (pySorted (f1 ++ f2).dedup).length) 0 (Nat.mod_lt _ hlen)
        exact ⟨_, rfl, by simp, by
          intro f hf
          simp only [List.mem_singleton] at hf
          exact hf ▸ hall_mem _ hmem⟩
      · rw [if_neg hkept]
        refine ⟨_, rfl, ?_, ?_⟩
        · intro hc
          rw [hc] at hkept
          simp at hkept
        · intro f hf
          exact hall_mem f (List.mem_of_mem_filter hf)
    · rw [if_neg hcomb]
      by_cases hpick : o.rPickParent < 1/2
      · rw [if_pos hpick]
        exact ⟨f1, rfl, hf1, hm1⟩
      · rw [if_neg hpick]
        exact ⟨f2, rfl, hf2, hm2⟩

theorem crossover_first_point_spec (hot : ℚ) (o : XOracle) (p : ℕ)
    (n1pts n2pts : List (List ℚ)) (hv : o.Valid)
    (q1 q2 : List ℚ) (hh1 : n1pts.head? = some q1) (hh2 : n2pts.head? = some q2)
    (hq1 : q1.length = p) (hq2 : q2.length = p) :
    ∃ fp, crossover_first_point hot o p n1pts n2pts = some fp ∧
      fp.length = p ∧ ∀ x ∈ fp, 0 ≤ x ∧ x ≤ 1 := by
  have harg : ∀ i ∈ List.range p, ∃ v,
      (if mutate hot (o.rMutFirst i) then some (o.vFirst i)
       else do
         let p1 ← n1pts.head?
         let p2 ← n2pts.head?
         let v1 ← p1[i]?
         let v2 ← p2[i]?
         pure (npclip (interpolate_value hot (o.rFirstB1 i) (o.rFirstB2 i) v1 v2) 0 1))
        = some v ∧ (0 ≤ v ∧ v ≤ 1) := by
    intro i hi
    have hip : i < p := List.mem_range.mp hi
    cases hmut : mutate hot (o.rMutFirst i) with
    | true =>
      exact ⟨o.vFirst i, by simp [hmut], (hv.vFirst01 i).1,
        le_of_lt (lt_of_lt_of_le (hv.vFirst01 i).2 (by norm_num))⟩
    | false =>
      have hb1 : i < q1.length := by omega
      have hb2 : i < q2.length := by omega
      have h1 : q1[i]? = some (q1.get ⟨i, hb1⟩) := List.getElem?_eq_getElem hb1
      have h2 : q2[i]? = some (q2.get ⟨i, hb2⟩) := List.getElem?_eq_getElem hb2
      refine ⟨npclip (interpolate_value hot (o.rFirstB1 i) (o.rFirstB2 i)
        (q1.get ⟨i, hb1⟩) (q2.get ⟨i, hb2⟩)) 0 1, ?_, npclip01_bounds _⟩
      simp [hmut, hh1, hh2, h1, h2]
  obtain ⟨out, hout, hlen, hP⟩ :=
    collectSome_spec _ (fun v => 0 ≤ v ∧ v ≤ 1) (List.range p) harg
  exact ⟨out, hout, by simpa using hlen, hP⟩

theorem crossover_num_points_ge (hot : ℚ) (o : XOracle) (len1 len2 : ℕ) (hv : o.Valid) :
    2 ≤ crossover_num_points hot o len1 len2 := by
  unfold crossover_num_points
  split
  · exact hv.countRand_ge
  · exact le_max_left 2 _

theorem parent_step_vec_spec (p num : ℕ) (pts : List (List ℚ)) (point_idx : ℕ)
    (hlen : 2 ≤ pts.length) (hp : ∀ pt ∈ pts, pt.length = p) :
    ∃ vec, parent_step_vec p num pts point_idx = some vec ∧ vec.length = p := by
  unfold parent_step_vec
  dsimp only
  set s0 := (pyInt (((point_idx : ℚ) / (num : ℚ)) * (pts.length : ℚ))).toNat with hs0
  set s := if min s0 (pts.length - 1) = 0 then 1 else min s0 (pts.length - 1) with hs
  have hs_ub : s ≤ pts.length - 1 := by
    rw [hs]
    split
    · omega
    · exact min_le_right _ _
  have hs_lt : s < pts.length := by omega
  have hs1_lt : s - 1 < pts.length := by omega
  rw [List.getElem?_eq_getElem hs_lt, List.getElem?_eq_getElem hs1_lt]
  have ha_len : pts[s].length = p := hp _ (List.getElem_mem hs_lt)
  have hb_len : pts[s - 1].length = p := hp _ (List.getElem_mem hs1_lt)
  have harg : ∀ i ∈ List.range p, ∃ v,
      (do
        let x ← pts[s][i]?
        let y ← pts[s - 1][i]?
        pure (x - y)) = some v ∧ True := by
    intro i hi
    have hip : i < p := List.mem_range.mp hi
    have hbi : i < pts[s].length := by omega
    have hbi' : i < pts[s - 1].length := by omega
    have hx : pts[s][i]? = some pts[s][i] := List.getElem?_eq_getElem hbi
    have hy : pts[s - 1][i]? = some pts[s - 1][i] := List.getElem?_eq_getElem hbi'
    refine ⟨pts[s][i] - pts[s - 1][i], ?_, trivial⟩
    simp [hx, hy]
  obtain ⟨out, hout, hlen', _⟩ :=
    collectSome_spec _ (fun _ => True) (List.range p) harg
  exact ⟨out, by simpa using hout, by simpa using hlen'⟩

theorem crossover_step_vec_spec (hot : ℚ) (o : XOracle) (p num : ℕ)
    (n1pts n2pts : List (List ℚ)) (point_idx : ℕ)
    (h1 : 2 ≤ n1pts.length) (h2 : 2 ≤ n2pts.length)
    (hp1 : ∀ pt ∈ n1pts, pt.length = p) (hp2 : ∀ pt ∈ n2pts, pt.length = p) :
    ∃ vec, crossover_step_vec hot o p num n1pts n2pts point_idx = some vec := by
  unfold crossover_step_vec
  cases hmut : mutate hot (o.rMutStep point_idx) with
  | true => exact ⟨_, by rw [if_pos rfl]⟩
  | false =>
    rw [if_neg (by simp)]
    obtain ⟨v1, hv1, _⟩ := parent_step_vec_spec p num n1pts point_idx h1 hp1
    obtain ⟨v2, hv2, _⟩ := parent_step_vec_spec p num n2pts point_idx h2 hp2
    refine ⟨interpolate_vector hot (o.rStepB1 point_idx) (o.rStepB2 point_idx) v1 v2, ?_⟩
    simp [hv1, hv2]

theorem crossover_rest_spec (hot : ℚ) (o : XOracle) (p num : ℕ)
    (n1pts n2pts : List (List ℚ))
    (h1 : 2 ≤ n1pts.length) (h2 : 2 ≤ n2pts.length)
    (hp1 : ∀ pt ∈ n1pts, pt.length = p) (hp2 : ∀ pt ∈ n2pts, pt.length = p) :
    ∀ (fuel point_idx : ℕ) (current : List ℚ),
      ∃ rest, crossover_rest hot o p num n1pts n2pts point_idx fuel current = some rest ∧
        rest.length = fuel ∧ ∀ pt ∈ rest, ∀ x ∈ pt, 0 ≤ x ∧ x ≤ 1
  | 0, point_idx, current => ⟨[], rfl, rfl, by simp⟩
  | fuel + 1, point_idx, current => by
      obtain ⟨vec, hvec⟩ :=
        crossover_step_vec_spec hot o p num n1pts n2pts point_idx h1 h2 hp1 hp2
      obtain ⟨rest, hrest, hlen, hP⟩ :=
        crossover_rest_spec hot o p num n1pts n2pts h1 h2 hp1 hp2 fuel (point_idx + 1)
          (List.zipWith (fun c v => npclip (c + v) 0 1) current vec)
      refine ⟨List.zipWith (fun c v => npclip (c + v) 0 1) current vec :: rest, ?_,
        by simp [hlen], ?_⟩
      · unfold crossover_rest
        simp [hvec, hrest]
      · intro pt hpt
        rcases List.mem_cons.mp hpt with hcase | hcase
        · subst hcase
          intro x hx
          obtain ⟨a, b, hab⟩ := mem_zipWith_exists _ current vec x hx
          exact hab ▸ npclip01_bounds _
        · exact hP pt hcase

theorem crossover_pause_nonneg (hot : ℚ) (o : XOracle) (pause1 pause2 : ℚ)
    (hv : o.Valid) (h1 : 0 ≤ pause1) (h2 : 0 ≤ pause2) :
    0 ≤ crossover_pause hot o pause1 pause2 := by
  unfold crossover_pause
  split
  · nlinarith [hv.rPauseVal01.1]
  · have hb := interpolate_value_bounds hot o.rPauseB1 o.rPauseB2 pause1 pause2 hv.rPauseB201
    have hm : (0 : ℚ) ≤ min pause1 pause2 := le_min h1 h2
    linarith [hb.1]

theorem head_some_mem {α : Type} (l : List α) (a : α) (h : l.head? = some a) : a ∈ l := by
  rcases l with _ | ⟨x, t⟩
  · simp at h
  · simp only [List.head?_cons, Option.some.injEq] at h
    subst h
    exact List.mem_cons_self _ _

theorem crossover_total_spec (hot : ℚ) (o : XOracle) (note1 note2 : PyNote) (p : ℕ)
    (hv : o.Valid)
    (h1len : 2 ≤ note1.data_points.length) (h2len : 2 ≤ note2.data_points.length)
    (hd1 : ∀ pt ∈ note1.data_points, pt.length = p)
    (hd2 : ∀ pt ∈ note2.data_points, pt.length = p)
    (hf1 : note1.fingers ≠ []) (hf2 : note2.fingers ≠ [])
    (hm1 : ∀ f ∈ note1.fingers, f ∈ ([1, 2, 3, 4] : List ℕ))
    (hm2 : ∀ f ∈ note2.fingers, f ∈ ([1, 2, 3, 4] : List ℕ))
    (hp1 : 0 ≤ note1.pause_after.getD 0) (hp2 : 0 ≤ note2.pause_after.getD 0) :
    ∃ m, crossover hot o note1 note2 = some m ∧
      m.fingers ≠ [] ∧ (∀ f ∈ m.fingers, f ∈ ([1, 2, 3, 4] : List ℕ)) ∧
      2 ≤ m.data_points.length ∧
      (∀ pt ∈ m.data_points, ∀ x ∈ pt, 0 ≤ x ∧ x ≤ 1) ∧
      (∃ q, m.pause_after = some q ∧ 0 ≤ q) ∧
      m.duration = some (((m.data_points.length : ℚ) - 1) * AGENT_POINT_INTERVAL) ∧
      AGENT_POINT_INTERVAL ≤ ((m.data_points.length : ℚ) - 1) * AGENT_POINT_INTERVAL ∧
      m.source = "ai" := by
  have hne1 : note1.data_points ≠ [] := by
    intro hc
    rw [hc] at h1len
    simp at h1len
  have hne2 : note2.data_points ≠ [] := by
    intro hc
    rw [hc] at h2len
    simp at h2len
  obtain ⟨fp0, hfp0⟩ : ∃ q, note1.data_points.head? = some q :=
    ⟨_, List.head?_eq_head hne1⟩
  obtain ⟨q2, hh2⟩ : ∃ q, note2.data_points.head? = some q :=
    ⟨_, List.head?_eq_head hne2⟩
  have hq1 : fp0.length = p := hd1 _ (head_some_mem _ _ hfp0)
  have hq2 : q2.length = p := hd2 _ (head_some_mem _ _ hh2)
  obtain ⟨fl, hfl, hflne, hflmem⟩ :=
    crossover_fingers_spec hot o note1.fingers note2.fingers hv hf1 hf2 hm1 hm2
  obtain ⟨fp, hfp, hfplen, hfpP⟩ :=
    crossover_first_point_spec hot o p note1.data_points note2.data_points hv
      fp0 q2 hfp0 hh2 hq1 hq2
  have hnum2 : 2 ≤ crossover_num_points hot o note1.data_points.length note2.data_points.length :=
    crossover_num_points_ge hot o _ _ hv
  obtain ⟨rest, hrest, hrestlen, hrestP⟩ :=
    crossover_rest_spec hot o p
      (crossover_num_points hot o note1.data_points.length note2.data_points.length)
      note1.data_points note2.data_points h1len h2len hd1 hd2
      (crossover_num_points hot o note1.data_points.length note2.data_points.length - 1) 1 fp
  have heq : crossover hot o note1 note2 = some
      { fingers := fl,
        pause_after := some (crossover_pause hot o
          (note1.pause_after.getD 0) (note2.pause_after.getD 0)),
        duration := some (if (fp :: rest).length > 1 then
            (((fp :: rest).length : ℚ) - 1) * AGENT_POINT_INTERVAL
          else AGENT_POINT_INTERVAL),
        data_points := fp :: rest, source := "ai" } := by
    unfold crossover
    rw [hfp0]
    simp only [Option.bind_eq_bind, Option.some_bind]
    rw [hq1, hfl]
    simp only [Option.bind_eq_bind, Option.some_bind]
    rw [hfp]
    simp only [Option.bind_eq_bind, Option.some_bind]
    rw [hrest]
    simp only [Option.bind_eq_bind, Option.some_bind]
    rfl
  have hlen_pts : (fp :: rest).length
      = crossover_num_points hot o note1.data_points.length note2.data_points.length := by
    simp [hrestlen]
    omega
  have hgt1 : (fp :: rest).length > 1 := by omega
  refine ⟨_, heq, hflne, hflmem, ?_, ?_, ?_, ?_, ?_, rfl⟩
  · simpa [hlen_pts] using hnum2
  · intro pt hpt
    rcases List.mem_cons.mp hpt with hcase | hcase
    · intro x hx
      exact hfpP x (hcase ▸ hx)
    · exact hrestP pt hcase
  · exact ⟨_, rfl, crossover_pause_nonneg hot o _ _ hv hp1 hp2⟩
  · simp only [if_pos hgt1]
  · have h2c : (2 : ℚ) ≤ ((fp :: rest).length : ℚ) := by
      exact_mod_cast hlen_pts ▸ hnum2
    rw [show AGENT_POINT_INTERVAL = 1/50 by norm_num [AGENT_POINT_INTERVAL]]
    nlinarith

theorem default_oracle_valid : ({} : XOracle).Valid := by
  constructor <;>
    first
      | exact ⟨by norm_num, by norm_num⟩
      | (intro i; exact ⟨by norm_num, by norm_num⟩)
      | (intro i j; exact ⟨by norm_num, by norm_num⟩)
      | simp

/-- C1: for parents that each have at least two data points (of one common
arity), components in the unit interval, non-empty finger sets drawn from
1..4 and non-negative pause_after, every outcome of the random draws makes
crossover return a note with a non-empty fingers list inside 1..4, at least
2 data points, every point component in the unit interval, non-negative
pause_after, duration equal to (point count - 1) times the 0.02 s sampling
interval (hence at least one interval), and source tag ai. -/
theorem crossover_output_valid (hot : ℚ) (o : XOracle) (note1 note2 : PyNote) (p : ℕ)
    (hv : o.Valid)
    (h1len : 2 ≤ note1.data_points.length) (h2len : 2 ≤ note2.data_points.length)
    (hd1 : ∀ pt ∈ note1.data_points, pt.length = p)
    (hd2 : ∀ pt ∈ note2.data_points, pt.length = p)
    (hc1 : ∀ pt ∈ note1.data_points, ∀ x ∈ pt, 0 ≤ x ∧ x ≤ 1)
    (hc2 : ∀ pt ∈ note2.data_points, ∀ x ∈ pt, 0 ≤ x ∧ x ≤ 1)
    (hf1 : note1.fingers ≠ []) (hf2 : note2.fingers ≠ [])
    (hm1 : ∀ f ∈ note1.fingers, f ∈ ([1, 2, 3, 4] : List ℕ))
    (hm2 : ∀ f ∈ note2.fingers, f ∈ ([1, 2, 3, 4] : List ℕ))
    (hp1 : 0 ≤ note1.pause_after.getD 0) (hp2 : 0 ≤ note2.pause_after.getD 0) :
    ∃ m, crossover hot o note1 note2 = some m ∧
      m.fingers ≠ [] ∧ (∀ f ∈ m.fingers, f ∈ ([1, 2, 3, 4] : List ℕ)) ∧
      2 ≤ m.data_points.length ∧
      (∀ pt ∈ m.data_points, ∀ x ∈ pt, 0 ≤ x ∧ x ≤ 1) ∧
      (∃ q, m.pause_after = some q ∧ 0 ≤ q) ∧
      m.duration = some (((m.data_points.length : ℚ) - 1) * AGENT_POINT_INTERVAL) ∧
      AGENT_POINT_INTERVAL ≤ ((m.data_points.length : ℚ) - 1) * AGENT_POINT_INTERVAL ∧
      m.source = "ai" :=
  crossover_total_spec hot o note1 note2 p hv h1len h2len hd1 hd2 hf1 hf2 hm1 hm2 hp1 hp2

theorem crossover_output_valid_witness :
    ∃ m, crossover 0 {}
        { fingers := [1], data_points := [[0, 0, 0, 0, 0, 0], [1, 1, 1, 1, 1, 1]] }
        { fingers := [1], data_points := [[0, 0, 0, 0, 0, 0], [1, 1, 1, 1, 1, 1]] } = some m ∧
      m.fingers ≠ [] ∧ (∀ f ∈ m.fingers, f ∈ ([1, 2, 3, 4] : List ℕ)) ∧
      2 ≤ m.data_points.length ∧
      (∀ pt ∈ m.data_points, ∀ x ∈ pt, 0 ≤ x ∧ x ≤ 1) ∧
      (∃ q, m.pause_after = some q ∧ 0 ≤ q) ∧
      m.duration = some (((m.data_points.length : ℚ) - 1) * AGENT_POINT_INTERVAL) ∧
      AGENT_POINT_INTERVAL ≤ ((m.data_points.length : ℚ) - 1) * AGENT_POINT_INTERVAL ∧
      m.source = "ai" :=
  crossover_output_valid 0 {}
    { fingers := [1], data_points := [[0, 0, 0, 0, 0, 0], [1, 1, 1, 1, 1, 1]] }
    { fingers := [1], data_points := [[0, 0, 0, 0, 0, 0], [1, 1, 1, 1, 1, 1]] } 6
    default_oracle_valid
    (by norm_num) (by norm_num)
    (by intro pt hpt; simp at hpt; rcases hpt with h | h <;> simp [h])
    (by intro pt hpt; simp at hpt; rcases hpt with h | h <;> simp [h])
    (by intro pt hpt x hx; simp at hpt; rcases hpt with h | h <;> subst h <;>
        simp at hx <;> simp [hx])
    (by intro pt hpt x hx; simp at hpt; rcases hpt with h | h <;> subst h <;>
        simp at hx <;> simp [hx])
    (by simp) (by simp) (by simp) (by simp) (by simp) (by simp)

/-- C9: when every parent has at least 2 data points (of one common arity),
the non-mutation step branch's mapped parent index is always within bounds
(parent_step_vec never raises) and crossover raises no exception at all;
generate_phrase's validity filter nevertheless admits a note with exactly
one data point, and on such a note some outcomes of the draws (here: hotness
0 with every draw 1/2, so no decision mutates) make crossover raise, the
failure being caught and the note skipped by generate_phrase. -/
theorem crossover_index_safety (hot : ℚ) (o : XOracle) (note1 note2 : PyNote)
    (p num point_idx : ℕ) (hv : o.Valid)
    (h1len : 2 ≤ note1.data_points.length) (h2len : 2 ≤ note2.data_points.length)
    (hd1 : ∀ pt ∈ note1.data_points, pt.length = p)
    (hd2 : ∀ pt ∈ note2.data_points, pt.length = p)
    (hf1 : note1.fingers ≠ []) (hf2 : note2.fingers ≠ [])
    (hm1 : ∀ f ∈ note1.fingers, f ∈ ([1, 2, 3, 4] : List ℕ))
    (hm2 : ∀ f ∈ note2.fingers, f ∈ ([1, 2, 3, 4] : List ℕ))
    (hp1 : 0 ≤ note1.pause_after.getD 0) (hp2 : 0 ≤ note2.pause_after.getD 0) :
    (parent_step_vec p num note1.data_points point_idx).isSome = true ∧
    (crossover hot o note1 note2).isSome = true ∧
    valid_notes_filter [{ fingers := [1], data_points := [[1/2, 1/2, 1/2, 1/2, 1/2, 1/2]] }]
      = [{ fingers := [1], data_points := [[1/2, 1/2, 1/2, 1/2, 1/2, 1/2]] }] ∧
    crossover 0 {} { fingers := [1], data_points := [[1/2, 1/2, 1/2, 1/2, 1/2, 1/2]] }
      { fingers := [1], data_points := [[1/2, 1/2, 1/2, 1/2, 1/2, 1/2]] } = none := by
  refine ⟨?_, ?_, ?_, ?_⟩
  · obtain ⟨vec, hvec, _⟩ := parent_step_vec_spec p num note1.data_points point_idx h1len hd1
    simp [hvec]
  · obtain ⟨m, hm, _⟩ :=
      crossover_total_spec hot o note1 note2 p hv h1len h2len hd1 hd2 hf1 hf2 hm1 hm2 hp1 hp2
    simp [hm]
  · simp [valid_notes_filter]
  · norm_num [crossover, crossover_fingers, crossover_first_point, crossover_num_points,
      crossover_rest, crossover_step_vec, parent_step_vec, crossover_pause, mutate,
      interpolate_value, interpolate_vector, collectSome, pyInt, npclip, pySorted,
      insertSorted, List.range_succ]

theorem crossover_index_safety_witness :
    (parent_step_vec 6 2 [[0, 0, 0, 0, 0, 0], [1, 1, 1, 1, 1, 1]] 1).isSome = true ∧
    crossover 0 {} { fingers := [1], data_points := [[1/2, 1/2, 1/2, 1/2, 1/2, 1/2]] }
      { fingers := [1], data_points := [[1/2, 1/2, 1/2, 1/2, 1/2, 1/2]] } = none :=
  ⟨(crossover_index_safety 0 {}
      { fingers := [1], data_points := [[0, 0, 0, 0, 0, 0], [1, 1, 1, 1, 1, 1]] }
      { fingers := [1], data_points := [[0, 0, 0, 0, 0, 0], [1, 1, 1, 1, 1, 1]] } 6 2 1
      default_oracle_valid (by norm_num) (by norm_num)
      (by intro pt hpt; simp at hpt; rcases hpt with h | h <;> simp [h])
      (by intro pt hpt; simp at hpt; rcases hpt with h | h <;> simp [h])
      (by simp) (by simp) (by simp) (by simp) (by simp) (by simp)).1,
   (crossover_index_safety 0 {}
      { fingers := [1], data_points := [[0, 0, 0, 0, 0, 0], [1, 1, 1, 1, 1, 1]] }
      { fingers := [1], data_points := [[0, 0, 0, 0, 0, 0], [1, 1, 1, 1, 1, 1]] } 6 2 1
      default_oracle_valid (by norm_num) (by norm_num)
      (by intro pt hpt; simp at hpt; rcases hpt with h | h <;> simp [h])
      (by intro pt hpt; simp at hpt; rcases hpt with h | h <;> simp [h])
      (by simp) (by simp) (by simp) (by simp) (by simp) (by simp)).2.2.2⟩

theorem select_notes_total (hot : ℚ) (o : SelOracle) (all_notes : List PyNote)
    (h : all_notes ≠ []) :
    ∃ a b, select_notes hot o all_notes = some (a, b) ∧ a ∈ all_notes ∧ b ∈ all_notes := by
  have hle : all_notes.isEmpty = false := by simpa [List.isEmpty_iff] using h
  by_cases hlen : all_notes.length < 2
  · rcases all_notes with _ | ⟨x, t⟩
    · exact absurd rfl h
    · rcases t with _ | ⟨y, t'⟩
      · exact ⟨x, x, by simp [select_notes], by simp, by simp⟩
      · simp at hlen
        omega
  · obtain ⟨n1, he1, hm1⟩ := select_single_note_mem hot o.r1 o.idx1 all_notes h
    obtain ⟨n2, he2, hm2⟩ := select_single_note_mem hot o.r2 o.idx2 all_notes h
    exact ⟨n1, n2, by simp [select_notes, hle, hlen, he1, he2], hm1, hm2⟩

theorem gen_loop_spec (hot : ℚ) (o : GPOracle) (valid : List PyNote) (p : ℕ)
    (hvne : valid ≠ []) (hxv : ∀ i, (o.xo i).Valid)
    (hallP : ∀ m ∈ valid, 2 ≤ m.data_points.length ∧
      (∀ pt ∈ m.data_points, pt.length = p) ∧ m.fingers ≠ [] ∧
      (∀ f ∈ m.fingers, f ∈ ([1, 2, 3, 4] : List ℕ)) ∧ 0 ≤ m.pause_after.getD 0) :
    ∀ (fuel i : ℕ), (gen_loop hot o valid i fuel).length = fuel ∧
      ∀ m ∈ gen_loop hot o valid i fuel, m.source = "ai"
  | 0, i => ⟨rfl, by simp [gen_loop]⟩
  | fuel + 1, i => by
      obtain ⟨a, b, hsel, ha, hb⟩ := select_notes_total hot (o.sel i) valid hvne
      obtain ⟨pa1, pa2, pa3, pa4, pa5⟩ := hallP a ha
      obtain ⟨pb1, pb2, pb3, pb4, pb5⟩ := hallP b hb
      obtain ⟨m, hm, hprops⟩ := crossover_total_spec hot (o.xo i) a b p (hxv i)
        pa1 pb1 pa2 pb2 pa3 pb3 pa4 pb4 pa5 pb5
      have hsrc : m.source = "ai" := hprops.2.2.2.2.2.2.2
      obtain ⟨ihlen, ihsrc⟩ := gen_loop_spec hot o valid p hvne hxv hallP fuel (i + 1)
      constructor
      · simp [gen_loop, hsel, hm, ihlen]
      · intro x hx
        simp only [gen_loop, hsel, hm] at hx
        rcases List.mem_cons.mp hx with hcase | hcase
        · exact hcase ▸ hsrc
        · exact ihsrc x hcase

/-- C4 (amended): for every generate_phrase call where the just-ended phrase
has n ≥ 1 notes and every input note is valid (at least 2 data points of one
common arity, non-empty fingers from 1..4, non-negative pause_after), the
target note count is max(1, int(n + u * n/2)) with u the uniform draw in
[-1, 1] and int the toward-zero truncation of the source (not round); the
returned list has exactly that many notes, each tagged source ai, and with a
4-note phrase the target lies between 1 and 6; an iteration whose crossover
raises is skipped, the loop continuing with the remaining iterations. -/
theorem generate_phrase_spec (hot : ℚ) (o : GPOracle) (all_notes : List PyNote)
    (last_phrase_num n p : ℕ) (hv : o.Valid)
    (hn : (all_notes.filter (fun m => m.phrase == some last_phrase_num)).length = n)
    (hn1 : 1 ≤ n)
    (hall : ∀ m ∈ all_notes, 2 ≤ m.data_points.length ∧
      (∀ pt ∈ m.data_points, pt.length = p) ∧ m.fingers ≠ [] ∧
      (∀ f ∈ m.fingers, f ∈ ([1, 2, 3, 4] : List ℕ)) ∧ 0 ≤ m.pause_after.getD 0) :
    (generate_phrase hot o all_notes last_phrase_num).length = generate_phrase_target n o.u ∧
    (∀ m ∈ generate_phrase hot o all_notes last_phrase_num, m.source = "ai") ∧
    (n = 4 → 1 ≤ generate_phrase_target n o.u ∧ generate_phrase_target n o.u ≤ 6) ∧
    (∀ (valid' : List PyNote) (i fuel : ℕ) (n1 n2 : PyNote),
      select_notes hot (o.sel i) valid' = some (n1, n2) →
      crossover hot (o.xo i) n1 n2 = none →
      gen_loop hot o valid' i (fuel + 1) = gen_loop hot o valid' (i + 1) fuel) := by
  have hne : all_notes ≠ [] := by
    intro hc
    rw [hc] at hn
    simp at hn
    omega
  have hvalid_eq : valid_notes_filter all_notes = all_notes := by
    apply List.filter_eq_self.mpr
    intro m hm
    have h2 := (hall m hm).1
    have : m.data_points ≠ [] := by
      intro hc
      rw [hc] at h2
      simp at h2
    simpa [List.isEmpty_iff] using this
  have hvne : valid_notes_filter all_notes ≠ [] := by
    rw [hvalid_eq]
    exact hne
  have hloop := gen_loop_spec hot o (valid_notes_filter all_notes) p hvne hv.xo_valid
    (by
      intro m hm
      rw [hvalid_eq] at hm
      exact hall m hm)
  have hmain : generate_phrase hot o all_notes last_phrase_num
      = gen_loop hot o (valid_notes_filter all_notes) 0 (generate_phrase_target n o.u) := by
    unfold generate_phrase
    dsimp only
    rw [hn]
    rw [if_neg (by omega)]
    rw [if_neg (by simpa [List.isEmpty_iff] using hvne)]
  refine ⟨?_, ?_, ?_, ?_⟩
  · rw [hmain]
    exact (hloop (generate_phrase_target n o.u) 0).1
  · rw [hmain]
    exact (hloop (generate_phrase_target n o.u) 0).2
  · intro hn4
    subst hn4
    constructor
    · exact le_max_left 1 _
    · have hx2 : (2 : ℚ) ≤ (4 : ℚ) + o.u * ((4 : ℚ) / 2) := by
        have := hv.u_ge
        linarith
      have hx6 : (4 : ℚ) + o.u * ((4 : ℚ) / 2) ≤ 6 := by
        have := hv.u_le
        linarith
      unfold generate_phrase_target pyInt
      rw [if_neg (by push_neg; linarith)]
      have hfl : ⌊(4 : ℚ) + o.u * ((4 : ℚ) / 2)⌋ ≤ 6 := by
        have h := Int.floor_le_floor hx6
        simpa using h
      apply max_le (by norm_num)
      exact (Int.toNat_le).mpr (by push_cast; exact_mod_cast hfl)
  · intro valid' i fuel n1 n2 hsel hcr
    simp [gen_loop, hsel, hcr]

theorem default_gp_oracle_valid : ({} : GPOracle).Valid :=
  ⟨by norm_num, by norm_num, fun i => default_oracle_valid⟩

theorem generate_phrase_spec_witness :
    (generate_phrase 0 {}
      [{ fingers := [1], data_points := [[0, 0, 0, 0, 0, 0], [1, 1, 1, 1, 1, 1]], phrase := some 1 },
       { fingers := [1], data_points := [[0, 0, 0, 0, 0, 0], [1, 1, 1, 1, 1, 1]], phrase := some 1 },
       { fingers := [1], data_points := [[0, 0, 0, 0, 0, 0], [1, 1, 1, 1, 1, 1]], phrase := some 1 },
       { fingers := [1], data_points := [[0, 0, 0, 0, 0, 0], [1, 1, 1, 1, 1, 1]], phrase := some 1 }] 1).length
      = generate_phrase_target 4 ({} : GPOracle).u ∧
    1 ≤ generate_phrase_target 4 ({} : GPOracle).u ∧
    generate_phrase_target 4 ({} : GPOracle).u ≤ 6 := by
  have h := generate_phrase_spec 0 {}
    [{ fingers := [1], data_points := [[0, 0, 0, 0, 0, 0], [1, 1, 1, 1, 1, 1]], phrase := some 1 },
     { fingers := [1], data_points := [[0, 0, 0, 0, 0, 0], [1, 1, 1, 1, 1, 1]], phrase := some 1 },
     { fingers := [1], data_points := [[0, 0, 0, 0, 0, 0], [1, 1, 1, 1, 1, 1]], phrase := some 1 },
     { fingers := [1], data_points := [[0, 0, 0, 0, 0, 0], [1, 1, 1, 1, 1, 1]], phrase := some 1 }]
    1 4 6 default_gp_oracle_valid (by rfl) (by norm_num)
    (by
      intro m hm
      simp at hm
      subst hm
      refine ⟨by norm_num, ?_, by simp, by simp, by simp⟩
      intro pt hpt
      simp at hpt
      rcases hpt with h | h <;> simp [h])
  exact ⟨h.1, h.2.2.1 rfl⟩

/-- C5: note_similarity is symmetric for every pair of notes with non-empty
data_points (of the 6-component shape the source destructures): the finger
Jaccard index, the path-length ratio and the cosine-based direction term are
each symmetric in the two notes. -/
theorem note_similarity_symm (A B : PyNote)
    (hA : A.data_points ≠ []) (hB : B.data_points ≠ [])
    (hA6 : ∀ pt ∈ A.data_points, pt.length = 6)
    (hB6 : ∀ pt ∈ B.data_points, pt.length = 6) :
    note_similarity A B = note_similarity B A := by
  unfold note_similarity
  dsimp only
  have hdot : dot (avg_dir (traj A)) (avg_dir (traj B))
      = dot (avg_dir (traj B)) (avg_dir (traj A)) := by
    unfold dot
    rw [List.zipWith_comm_of_comm _ mul_comm]
  rw [Finset.inter_comm, Finset.union_comm, min_comm, max_comm, hdot,
      mul_comm (vnorm (avg_dir (traj A))) (vnorm (avg_dir (traj B)))]
  simp only [and_comm]

theorem note_similarity_symm_witness :
    note_similarity { fingers := [1], data_points := [[0, 0, 0, 0, 0, 0]] }
        { fingers := [2], data_points := [[1, 1, 1, 1, 1, 0]] }
      = note_similarity { fingers := [2], data_points := [[1, 1, 1, 1, 1, 0]] }
        { fingers := [1], data_points := [[0, 0, 0, 0, 0, 0]] } :=
  note_similarity_symm _ _ (by simp) (by simp)
    (by intro pt hpt; simp at hpt; simp [hpt])
    (by intro pt hpt; simp at hpt; simp [hpt])

theorem note_similarity_congr (a a' b b' : PyNote)
    (hfa : a.fingers = a'.fingers) (hda : a.data_points = a'.data_points)
    (hfb : b.fingers = b'.fingers) (hdb : b.data_points = b'.data_points) :
    note_similarity a b = note_similarity a' b' := by
  unfold note_similarity traj
  rw [hfa, hda, hfb, hdb]

theorem consecutive_sims_of_map_eq : ∀ (l l' : List PyNote),
    l.map (fun n => (n.fingers, n.data_points)) = l'.map (fun n => (n.fingers, n.data_points)) →
    consecutive_sims l = consecutive_sims l'
  | [], [], _ => rfl
  | [], _ :: _, h => by simp at h
  | _ :: _, [], h => by simp at h
  | [a], [a'], _ => rfl
  | [a], _ :: _ :: _, h => by simp at h
  | _ :: _ :: _, [a'], h => by simp at h
  | a :: b :: t, a' :: b' :: t', h => by
      simp only [List.map_cons, List.cons.injEq, Prod.mk.injEq] at h
      obtain ⟨⟨hfa, hda⟩, ⟨hfb, hdb⟩, h3⟩ := h
      have h2 : (b :: t).map (fun n => (n.fingers, n.data_points))
          = (b' :: t').map (fun n => (n.fingers, n.data_points)) := by
        simp only [List.map_cons, List.cons.injEq, Prod.mk.injEq]
        exact ⟨⟨hfb, hdb⟩, h3⟩
      show note_similarity a b :: consecutive_sims (b :: t)
          = note_similarity a' b' :: consecutive_sims (b' :: t')
      rw [note_similarity_congr a a' b b' hfa hda hfb hdb,
          consecutive_sims_of_map_eq (b :: t) (b' :: t') h2]

theorem map_key_updateLast (f : PyNote → PyNote)
    (hf : ∀ x : PyNote, (f x).fingers = x.fingers ∧ (f x).data_points = x.data_points) :
    ∀ l : List PyNote, (updateLast f l).map (fun n => (n.fingers, n.data_points))
      = l.map (fun n => (n.fingers, n.data_points))
  | [] => rfl
  | [a] => by simp [updateLast, (hf a).1, (hf a).2]
  | a :: b :: t => by
      simp only [updateLast, List.map_cons, List.cons.injEq]
      exact ⟨trivial, map_key_updateLast f hf (b :: t)⟩

theorem end_phrase_notes_key_eq (s : RecState) :
    (end_phrase_notes s).map (fun n => (n.fingers, n.data_points))
      = s.notes.map (fun n => (n.fingers, n.data_points)) := by
  unfold end_phrase_notes end_phrase_tagged
  rw [map_key_updateLast (fun n => { n with pause_after := some LAST_NOTE_PAUSE })
      (fun x => ⟨rfl, rfl⟩)]
  rw [List.map_map]
  have hfun : ((fun n : PyNote => (n.fingers, n.data_points)) ∘
      (fun note => if note.phrase.isNone then { note with phrase := some s.phrase_num } else note))
      = (fun n : PyNote => (n.fingers, n.data_points)) := by
    funext n
    by_cases h : n.phrase.isNone <;> simp [Function.comp, h]
  rw [hfun]

theorem consecutive_sims_length : ∀ l : List PyNote,
    (consecutive_sims l).length = l.length - 1
  | [] => rfl
  | [a] => rfl
  | a :: b :: t => by
      show (note_similarity a b :: consecutive_sims (b :: t)).length = (a :: b :: t).length - 1
      simp only [List.length_cons, consecutive_sims_length (b :: t)]
      omega

/-- C2 (amended): the cohesion end_phrase computes is the arithmetic mean of
note_similarity over every consecutive pair of the ENTIRE recorded notes
list, previously tagged phrases included, not only over the newly
phrase-tagged notes, and it is 0 exactly when the recorder holds fewer than
2 notes in total (tagging and the last-note pause stamp do not change any
similarity). -/
theorem end_phrase_cohesion_spec (s : RecState) :
    (s.notes.length < 2 → end_phrase_cohesion s = 0) ∧
    (2 ≤ s.notes.length →
      end_phrase_cohesion s
        = (consecutive_sims s.notes).sum / ((s.notes.length : ℝ) - 1)) := by
  have hsims : consecutive_sims (end_phrase_notes s) = consecutive_sims s.notes :=
    consecutive_sims_of_map_eq _ _ (end_phrase_notes_key_eq s)
  constructor
  · intro h2
    unfold end_phrase_cohesion phrase_cohesion
    rw [hsims]
    have hnil : consecutive_sims s.notes = [] :=
      List.length_eq_zero.mp (by rw [consecutive_sims_length]; omega)
    simp [hnil]
  · intro h2
    unfold end_phrase_cohesion phrase_cohesion
    rw [hsims]
    have hne : consecutive_sims s.notes ≠ [] := by
      intro hc
      have hl := consecutive_sims_length s.notes
      rw [hc] at hl
      simp at hl
      omega
    rw [if_neg (by simpa [List.isEmpty_iff] using hne)]
    rw [consecutive_sims_length]
    have hc : ((s.notes.length - 1 : ℕ) : ℝ) = (s.notes.length : ℝ) - 1 := by
      have h1 : 1 ≤ s.notes.length := by omega
      rw [Nat.cast_sub h1, Nat.cast_one]
    rw [hc]

theorem end_phrase_cohesion_spec_witness :
    end_phrase_cohesion {} = 0 :=
  (end_phrase_cohesion_spec {}).1 (by norm_num)

/-- C2 counterexample: a recorder holding one note already tagged in an
earlier phrase and one untagged note. The just-ended phrase has a single
note, so the claimed cohesion (mean over consecutive pairs of the newly
tagged notes, 0 when fewer than 2) is 0, but end_phrase computes the
similarity over the whole list: both notes share finger 1 and a one-point
trajectory, giving similarity 0.3 and cohesion 0.3, not 0. -/
theorem end_phrase_cohesion_counterexample :
    end_phrase_cohesion
        { notes := [{ fingers := [1], data_points := [[0, 0, 0, 0, 0, 0]], phrase := some 1 },
                    { fingers := [1], data_points := [[0, 0, 0, 0, 0, 0]] }] }
      = 0.3 ∧
    (({ notes := [{ fingers := [1], data_points := [[0, 0, 0, 0, 0, 0]], phrase := some 1 },
                  { fingers := [1], data_points := [[0, 0, 0, 0, 0, 0]] }] } : RecState).notes.filter
        (fun n => n.phrase.isNone)).length = 1 ∧
    (0.3 : ℝ) ≠ 0 := by
  refine ⟨?_, by rfl, by norm_num⟩
  unfold end_phrase_cohesion phrase_cohesion end_phrase_notes end_phrase_tagged updateLast
  norm_num [consecutive_sims, note_similarity, traj, vdiffs, path_length, avg_dir, vnorm, dot,
    List.range_succ, Real.sqrt_zero]
